import Mathlib

/-!
# Verification of the `stay-true` data pipeline

A shallow embedding of the repository's three TypeScript sources:

* the CSV parser (`parseCSVRow`, `parseFirstPage`, `parseCharacters`, the
  per-row record construction of `parseCSV`),
* the iTunes enrichment script (`findBestMatch`, `needsEnrichment`,
  `getHighResArtwork`, the query loop of `enrichSongs`), and
* the diagnostic lookup utility (`main`'s argument validation).

JavaScript strings are modelled as Lean `String`; the JavaScript string
operations used by the sources (`toLowerCase`, `trim`, `includes`, `split`,
`parseInt`) are implemented here by structural recursion on `List Char` so
that every definition evaluates inside the kernel.  JavaScript truthiness of
an optional string field (absent or empty ⇒ falsy) is `truthy`.
-/

namespace StayTrue

/-! ## JavaScript string primitives -/

/-- `s.toLowerCase()`: lower-case every character. -/
def jsToLower (s : String) : String := String.mk (s.data.map Char.toLower)

/-- Strip leading and trailing whitespace from a character list. -/
def trimChars (l : List Char) : List Char :=
  ((l.dropWhile Char.isWhitespace).reverse.dropWhile Char.isWhitespace).reverse

/-- `s.trim()`. -/
def jsTrim (s : String) : String := String.mk (trimChars s.data)

/-- Does `hay` start with `needle`? -/
def startsWithL : List Char → List Char → Bool
  | _, [] => true
  | [], _ :: _ => false
  | c :: cs, d :: ds => c = d && startsWithL cs ds

/-- Does `needle` occur contiguously inside `hay`?  (`hay.includes(needle)`.) -/
def containsL : List Char → List Char → Bool
  | [], needle => needle.isEmpty
  | hay@(_ :: t), needle => startsWithL hay needle || containsL t needle

/-- `s.includes(sub)`. -/
def jsIncludes (s sub : String) : Bool := containsL s.data sub.data

/-- Numeric value of a digit run (most significant first). -/
def digitsVal (l : List Char) : Nat :=
  l.foldl (fun acc c => acc * 10 + (c.toNat - '0'.toNat)) 0

/-- Read a decimal digit run after an optional sign; `none` models `NaN`. -/
def jsParseIntFrom (sign : Int) (l : List Char) : Option Int :=
  let digits := l.takeWhile Char.isDigit
  if digits.isEmpty then none else some (sign * (digitsVal digits : Int))

/-- `parseInt(s, 10)`: skip leading whitespace, optional sign, read the
leading digit run; `none` models `NaN` (no digits at all). -/
def jsParseInt (s : String) : Option Int :=
  match s.data.dropWhile Char.isWhitespace with
  | '-' :: t => jsParseIntFrom (-1) t
  | '+' :: t => jsParseIntFrom 1 t
  | l => jsParseIntFrom 1 l

/-- Split a character list at commas (`s.split(',')`); `"".split(',')`
is `[""]`, matching JavaScript. -/
def splitCommaAux : List Char → List Char → List String
  | [], cur => [String.mk cur.reverse]
  | ',' :: rest, cur => String.mk cur.reverse :: splitCommaAux rest []
  | c :: rest, cur => splitCommaAux rest (c :: cur)

/-- `s.split(',')`. -/
def jsSplitComma (s : String) : List String := splitCommaAux s.data []

/-- JavaScript truthiness of an optional string field: absent (`undefined`)
and the empty string are falsy, every other string is truthy. -/
def truthy : Option String → Bool
  | none => false
  | some s => !s.data.isEmpty

/-! ## CSV Row Parser (`parse-csv.ts`)

`parseCSVRow` walks the row character by character, toggling `inQuotes` at
each `"`, splitting at commas only outside quotes, trimming each field. -/

/-- The character loop of `parseCSVRow`: `cur` is `currentField`. -/
def parseCSVRowAux : List Char → String → Bool → List String
  | [], cur, _ => [jsTrim cur]
  | c :: rest, cur, inQuotes =>
    if c = '"' then parseCSVRowAux rest cur (!inQuotes)
    else if c = ',' && !inQuotes then jsTrim cur :: parseCSVRowAux rest "" inQuotes
    else parseCSVRowAux rest (cur.push c) inQuotes

/-- `parseCSVRow(row)`: split one raw CSV row into trimmed fields, honouring
quoted fields that contain the delimiter. -/
def parseCSVRow (row : String) : List String := parseCSVRowAux row.data "" false

/-- `parseFirstPage(pageStr)`: first comma-separated piece, trimmed, parsed
as an integer (`none` models `NaN`). -/
def parseFirstPage (pageStr : String) : Option Int :=
  jsParseInt (jsTrim ((jsSplitComma pageStr).headD ""))

/-- `parseCharacters(charStr)`: split at commas, trim each piece, drop the
pieces that are empty after trimming. -/
def parseCharacters (charStr : String) : List String :=
  ((jsSplitComma charStr).map jsTrim).filter (fun c => !c.data.isEmpty)

/-- The record built by the parser for one data row (`SongEntry` in
`parse-csv.ts`).  Numeric fields are `Option Int`, `none` modelling `NaN`;
`title`/`artist`/`album` are `Option String`, `none` modelling `undefined`. -/
structure ParsedSong where
  id : String
  title : Option String
  artist : Option String
  album : Option String
  year : Option Int
  page : Option Int
  characters : List String
deriving DecidableEq, Repr

/-- The per-row record construction inside `parseCSV`'s `forEach`:
destructure the fields, map an em-dash title to `undefined`, an em-dash
album to the empty string, and parse the numeric fields.  `numSoFar` is
`songs.length` (the running 1-based id counter).  A missing `pageStr` or
`characters` field would throw in JavaScript; rows of the data file always
carry six fields, and the model returns `none`/`[]` there instead. -/
def mkSongEntry (numSoFar : Nat) (fields : List String) : ParsedSong :=
  let title := fields[0]?
  let artist := fields[1]?
  let album := fields[2]?
  let yearStr := fields[3]?
  let pageStr := fields[4]?
  let characters := fields[5]?
  { id := toString (numSoFar + 1)
    title := if title = some "—" then none else title
    artist := artist
    album := if album = some "—" then some "" else album
    year := match yearStr with | some y => jsParseInt y | none => none
    page := match pageStr with | some p => parseFirstPage p | none => none
    characters := match characters with | some c => parseCharacters c | none => [] }

/-! ## Catalog Enrichment Engine (`enrich-itunes.ts`) -/

/-- One candidate returned by the iTunes search (`iTunesSearchResult`). -/
structure ITunesResult where
  trackId : Int
  trackName : String
  artistName : String
  collectionName : String
  previewUrl : Option String
  artworkUrl100 : Option String
  artworkUrl60 : Option String
  trackViewUrl : String
deriving DecidableEq, Repr

/-- An iTunes search response (`iTunesResponse`). -/
structure ITunesResponse where
  resultCount : Nat
  results : List ITunesResult
deriving DecidableEq, Repr

/-- The record manipulated by the enrichment script (`SongEntry` in
`enrich-itunes.ts`).  The three metadata fields and `title` are optional
strings, as the JSON objects may lack them. -/
structure SongEntry where
  id : String
  title : Option String
  artist : String
  album : String
  year : Int
  page : Int
  characters : List String
  itunesTrackId : Option String
  previewUrl : Option String
  albumArt : Option String
deriving DecidableEq, Repr

/-- `expectedAlbum.toLowerCase().trim()` — the normalisation used on both
sides of the album comparison in `findBestMatch`. -/
def normalizeAlbum (s : String) : String := jsTrim (jsToLower s)

/-- The exact-match predicate of `findBestMatch`:
`r.collectionName.toLowerCase().trim() === normalizedExpected`. -/
def exactPred (normalizedExpected : String) (r : ITunesResult) : Bool :=
  normalizeAlbum r.collectionName = normalizedExpected

/-- The partial-match predicate of `findBestMatch`:
`resultAlbum.includes(normalizedExpected) || normalizedExpected.includes(resultAlbum)`. -/
def partialPred (normalizedExpected : String) (r : ITunesResult) : Bool :=
  jsIncludes (normalizeAlbum r.collectionName) normalizedExpected ||
    jsIncludes normalizedExpected (normalizeAlbum r.collectionName)

/-- `findBestMatch(results, expectedAlbum)`: empty list ⇒ no candidate;
blank expected album ⇒ first result, `"partial"`; else first exact
collection-name match ⇒ `"exact"`; else first substring match (either
direction) ⇒ `"partial"`; else first result, `"none"`. -/
def findBestMatch (results : List ITunesResult) (expectedAlbum : String) :
    Option ITunesResult × String :=
  match results with
  | [] => (none, "none")
  | r0 :: _ =>
    let normalizedExpected := normalizeAlbum expectedAlbum
    if normalizedExpected = "" then (some r0, "partial")
    else
      match results.find? (exactPred normalizedExpected) with
      | some exactMatch => (some exactMatch, "exact")
      | none =>
        match results.find? (partialPred normalizedExpected) with
        | some partialMatch => (some partialMatch, "partial")
        | none => (some r0, "none")

/-- `needsEnrichment(song)`: true iff at least one of the three metadata
fields is falsy (absent or empty). -/
def needsEnrichment (song : SongEntry) : Bool :=
  !truthy song.itunesTrackId || !truthy song.previewUrl || !truthy song.albumArt

/-- The filter of `enrichSongs`: `song.title && needsEnrichment(song)`. -/
def songToEnrich (song : SongEntry) : Bool :=
  truthy song.title && needsEnrichment song

/-- `c` equals the (lower-case) character `d` up to case — one character of
a case-insensitive (`/i`) regex match. -/
def lowEq (c d : Char) : Bool := c.toLower = d

/-- The anchored regex `/\/\d+x\d+bb\.(jpg|png)$/i` of `getHighResArtwork`,
matched on the *reversed* character list of the URL.  Returns the reversed
prefix that precedes the matched suffix, or `none` when the suffix does not
match. -/
def matchResSuffix : List Char → Option (List Char)
  | a :: b :: c :: d :: rest =>
    if d = '.' &&
        ((lowEq a 'g' && lowEq b 'p' && lowEq c 'j') ||
         (lowEq a 'g' && lowEq b 'n' && lowEq c 'p')) then
      match rest with
      | b1 :: b2 :: rest2 =>
        if lowEq b1 'b' && lowEq b2 'b' then
          let hRev := rest2.takeWhile Char.isDigit
          let r3 := rest2.dropWhile Char.isDigit
          if hRev.isEmpty then none
          else
            match r3 with
            | x :: r4 =>
              if lowEq x 'x' then
                let wRev := r4.takeWhile Char.isDigit
                let r5 := r4.dropWhile Char.isDigit
                if wRev.isEmpty then none
                else
                  match r5 with
                  | '/' :: preRev => some preRev
                  | _ => none
              else none
            | [] => none
        else none
      | _ => none
    else none
  | _ => none

/-- `getHighResArtwork(artworkUrl)`: `''` for a falsy argument; otherwise
replace a trailing `/WxHbb.jpg` or `/WxHbb.png` (case-insensitive) with
`/1000x1000bb.jpg`, leaving the URL unchanged when the pattern does not
match. -/
def getHighResArtwork (artworkUrl : Option String) : String :=
  match artworkUrl with
  | none => ""
  | some s =>
    if s.data.isEmpty then ""
    else
      match matchResSuffix s.data.reverse with
      | some preRev => String.mk (preRev.reverse ++ "/1000x1000bb.jpg".data)
      | none => s

/-- The accepted-match update of `enrichSongs`:
`song.itunesTrackId = bestMatch.trackId.toString()`,
`song.previewUrl = bestMatch.previewUrl || ''`,
`song.albumArt = getHighResArtwork(bestMatch.artworkUrl100)`. -/
def acceptCandidate (song : SongEntry) (bestMatch : ITunesResult) : SongEntry :=
  { song with
      itunesTrackId := some (toString bestMatch.trackId)
      previewUrl := some (bestMatch.previewUrl.getD "")
      albumArt := some (getHighResArtwork bestMatch.artworkUrl100) }

/-- What one `searchItunes` call does: either throws (`err`) or returns a
response. -/
inductive QueryOutcome where
  | err
  | ok (resp : ITunesResponse)
deriving DecidableEq, Repr

/-- One iteration of the `enrichSongs` loop body for a song that is being
processed.  Returns the (possibly updated) song, whether `queryCount` was
incremented (the call returned without throwing), and whether the song was
enriched (accepted); a song that is not enriched is counted as skipped. -/
def processOne (song : SongEntry) (outcome : QueryOutcome) (confirmAnswer : Bool) :
    SongEntry × Bool × Bool :=
  match outcome with
  | .err => (song, false, false)
  | .ok resp =>
    if resp.resultCount = 0 then (song, true, false)
    else
      match findBestMatch resp.results song.album with
      | (none, _) => (song, true, false)
      | (some bestMatch, matchType) =>
        if matchType = "exact" || confirmAnswer then
          (acceptCandidate song bestMatch, true, true)
        else (song, true, false)

/-- The counters of `enrichSongs`: `queryCount` (the script's own counter,
incremented only when a call returns), `attempts` (outbound `searchItunes`
calls actually issued), `enriched` and `skipped`. -/
structure EnrichState where
  queryCount : Nat
  attempts : Nat
  enriched : Nat
  skipped : Nat
deriving DecidableEq, Repr

/-- `MAX_QUERIES`. -/
def MAX_QUERIES : Nat := 15

/-- The counter update after one processed record: `queryCount++` only when
the call returned (`counted`), one more attempt, and one of
`enrichedCount`/`skippedCount` incremented according to `wasEnriched`. -/
def nextState (st : EnrichState) (counted wasEnriched : Bool) : EnrichState :=
  { queryCount := st.queryCount + (if counted then 1 else 0)
    attempts := st.attempts + 1
    enriched := st.enriched + (if wasEnriched then 1 else 0)
    skipped := st.skipped + (if wasEnriched then 0 else 1) }

/-- The loop of `enrichSongs`, walking the full record list in order.  The
script iterates over the filtered view `songs.filter(s => s.title &&
needsEnrichment(s))` and mutates the records in place; since each record is
mutated only through its own reference, this is the same as walking the full
list, processing exactly the records that pass the filter, and breaking
(leaving the whole remainder unchanged) when a filtered record is reached
with the query budget exhausted.  The search outcome and the operator's
answer for the `n`-th issued query are `oracle n` and `confirm n`. -/
def enrichLoop (oracle : Nat → QueryOutcome) (confirm : Nat → Bool) :
    List SongEntry → EnrichState → List SongEntry × EnrichState
  | [], st => ([], st)
  | song :: rest, st =>
    if songToEnrich song then
      if MAX_QUERIES ≤ st.queryCount then (song :: rest, st)
      else
        let step := processOne song (oracle st.attempts) (confirm st.attempts)
        let res := enrichLoop oracle confirm rest (nextState st step.2.1 step.2.2)
        (step.1 :: res.1, res.2)
    else
      let res := enrichLoop oracle confirm rest st
      (song :: res.1, res.2)

/-- `enrichSongs()`: run the loop over the whole record list with all
counters at zero. -/
def enrichSongs (songs : List SongEntry) (oracle : Nat → QueryOutcome)
    (confirm : Nat → Bool) : List SongEntry × EnrichState :=
  enrichLoop oracle confirm songs ⟨0, 0, 0, 0⟩

/-! ## Presentation store (spec §4.3) -/

/-- The UI record type (`song.ts`). -/
structure Song where
  id : String
  title : String
  artist : String
  album : String
  year : Int
  page : Int
  characters : List String
  itunesTrackId : String
  previewUrl : String
  albumArt : String
  spotifyUrl : Option String
deriving DecidableEq, Repr

/-- Modelled from the spec: the repository's UI (`src/src/App.tsx`) has no
character filter — §4.3 of the spec describes `filteredByCharacter` as the
identity for the `"All"` sentinel and otherwise the ordered subsequence of
records whose character set contains the selection. -/
def filteredByCharacter (records : List Song) (selected : String) : List Song :=
  if selected = "All" then records
  else records.filter (fun r => r.characters.contains selected)

/-- Modelled from the spec: the current index after a filter change — reset
to 0 when it would fall outside the new subsequence's bounds, never clamped
to the last position (spec §4.3). -/
def indexAfterFilter (idx : Nat) (filteredCount : Nat) : Nat :=
  if idx < filteredCount then idx else 0

/-! ## Diagnostic lookup utility (`test-itunes.ts`) -/

/-- `parseInt(process.argv[2])`: a missing argument is `undefined`, whose
`parseInt` is `NaN` (`none`). -/
def mainParseArg : Option String → Option Int
  | none => none
  | some a => jsParseInt a

/-- The argument validation of `main`: `none` models printing the usage
message and exiting with a non-zero status
(`isNaN(songIndex) || songIndex < 0 || songIndex >= songs.length`);
`some i` models proceeding to probe the record at index `i`. -/
def mainDecision (arg : Option String) (numSongs : Nat) : Option Int :=
  match mainParseArg arg with
  | none => none
  | some i => if i < 0 || (numSongs : Int) ≤ i then none else some i

/-! ## Shared helper notions for the theorems -/

/-- `a` is the first element of `l` satisfying `p`. -/
def firstSuch {α : Type} (p : α → Bool) (l : List α) (a : α) : Prop :=
  ∃ l₁ l₂, l = l₁ ++ a :: l₂ ∧ p a = true ∧ ∀ x ∈ l₁, p x = false

/-- Fold a character list onto a string with `push` (`currentField += char`
repeated). -/
def pushAll (cur : String) (l : List Char) : String := l.foldl String.push cur

/-- Join fields with the comma delimiter (builds a raw CSV row). -/
def joinComma : List String → String
  | [] => ""
  | [x] => x
  | x :: y :: rest => x ++ "," ++ joinComma (y :: rest)

/-! ## Concrete records used by the witnesses -/

/-- A record with a title and no metadata: it needs enrichment. -/
def demoSongNeeding : SongEntry :=
  { id := "1", title := some "Song", artist := "Artist", album := "Album",
    year := 1998, page := 3, characters := ["A"],
    itunesTrackId := none, previewUrl := none, albumArt := none }

/-- A record whose three metadata fields are all present but whose
`previewUrl` is the empty string an accepted candidate without a preview
produces. -/
def songEmptyPreview : SongEntry :=
  { id := "1", title := some "Song", artist := "Artist", album := "Album",
    year := 1998, page := 3, characters := ["A"],
    itunesTrackId := some "42", previewUrl := some "",
    albumArt := some "https://x/1000x1000bb.jpg" }

/-- A record with all three metadata fields present and non-empty. -/
def songFullyEnriched : SongEntry :=
  { id := "2", title := some "Song", artist := "Artist", album := "Album",
    year := 1998, page := 3, characters := ["A"],
    itunesTrackId := some "42", previewUrl := some "https://x/p.m4a",
    albumArt := some "https://x/1000x1000bb.jpg" }

/-- A UI record whose character set is `["A"]`. -/
def demoUISong : Song :=
  { id := "1", title := "T", artist := "Ar", album := "Al", year := 1998,
    page := 3, characters := ["A"], itunesTrackId := "42",
    previewUrl := "https://x/p.m4a", albumArt := "https://x/a.jpg",
    spotifyUrl := none }

/-- A candidate whose collection name is `"X"`. -/
def candX : ITunesResult :=
  { trackId := 1, trackName := "t", artistName := "a", collectionName := "X",
    previewUrl := none, artworkUrl100 := none, artworkUrl60 := none,
    trackViewUrl := "u" }

/-- A candidate whose collection name is `"Y"`. -/
def candY : ITunesResult :=
  { trackId := 2, trackName := "t", artistName := "a", collectionName := "Y",
    previewUrl := none, artworkUrl100 := none, artworkUrl60 := none,
    trackViewUrl := "u" }

/-- A candidate whose collection name is blank (whitespace only). -/
def candBlank : ITunesResult :=
  { trackId := 3, trackName := "t", artistName := "a", collectionName := " ",
    previewUrl := none, artworkUrl100 := none, artworkUrl60 := none,
    trackViewUrl := "u" }

/-- A candidate whose artwork URL carries a `WxH` resolution suffix
immediately before its extension but lacks the `bb` marker. -/
def candNoBB : ITunesResult :=
  { trackId := 7, trackName := "t", artistName := "a", collectionName := "Al",
    previewUrl := some "p", artworkUrl100 := some "https://x/30x30.png",
    artworkUrl60 := none, trackViewUrl := "u" }

/-! ## Helper lemmas -/

/-- A character list always contains the empty list as a contiguous run. -/
theorem containsL_nil (l : List Char) : containsL l [] = true := by
  cases l <;> simp [containsL, startsWithL, List.isEmpty]

/-- `find?` returns the first element satisfying the predicate. -/
theorem find?_of_firstSuch {α : Type} {p : α → Bool} {l : List α} {a : α}
    (h : firstSuch p l a) : l.find? p = some a := by
  obtain ⟨l₁, l₂, rfl, hpa, hl₁⟩ := h
  induction l₁ with
  | nil => simp [List.find?_cons, hpa]
  | cons x xs ih =>
    have hx : p x = false := hl₁ x (by simp)
    rw [List.cons_append, List.find?_cons, hx]
    exact ih (fun y hy => hl₁ y (by simp [hy]))

/-! ## Claim C9 -/

/-- Claim C9: the diagnostic utility exits with a usage message and non-zero
status exactly when the index argument is missing (`parseInt(undefined)` is
`NaN`), does not parse as an integer, or lies outside `[0, numSongs)`; for
every index inside the range it proceeds to probe the record at that index. -/
theorem cliIndexValidation (arg : Option String) (numSongs : Nat) :
    mainDecision none numSongs = none ∧
    (mainDecision arg numSongs = none ↔
      (mainParseArg arg = none ∨
        ∃ i, mainParseArg arg = some i ∧ (i < 0 ∨ (numSongs : Int) ≤ i))) ∧
    (∀ i : Int, mainDecision arg numSongs = some i ↔
      (mainParseArg arg = some i ∧ 0 ≤ i ∧ i < (numSongs : Int))) := by
  refine ⟨rfl, ?_, ?_⟩
  · unfold mainDecision
    cases h : mainParseArg arg with
    | none => simp
    | some j =>
      simp only [Bool.or_eq_true, decide_eq_true_eq, Option.some.injEq]
      split_ifs with hc
      · constructor
        · intro _; exact Or.inr ⟨j, rfl, hc⟩
        · intro _; rfl
      · constructor
        · intro hfalse; exact absurd hfalse (by simp)
        · rintro (hnone | ⟨i, rfl, hr⟩)
          · exact absurd hnone (by simp)
          · exact absurd hr hc
  · intro i
    unfold mainDecision
    cases h : mainParseArg arg with
    | none => simp
    | some j =>
      simp only [Bool.or_eq_true, decide_eq_true_eq, Option.some.injEq]
      split_ifs with hc
      · constructor
        · intro hfalse; exact absurd hfalse (by simp)
        · rintro ⟨rfl, h0, hlt⟩; exfalso; omega
      · simp only [Option.some.injEq]
        constructor
        · rintro rfl; exact ⟨rfl, by omega, by omega⟩
        · rintro ⟨rfl, _, _⟩; rfl


/-! ## Claim C4 (spec-modelled: the UI source has no character filter) -/

/-- Claim C4: `filteredByCharacter` is the identity for `"All"` and otherwise
the ordered subsequence of records whose character set contains the
selection; the index after a filter change is in `[0, filteredCount)`
whenever the subsequence is non-empty, is reset to 0 when it would fall out
of bounds, and is never clamped (it is either kept or reset to 0). -/
theorem filterIndexConsistency (records : List Song) (selected : String) (idx : Nat) :
    (selected = "All" → filteredByCharacter records selected = records) ∧
    (selected ≠ "All" →
      (filteredByCharacter records selected).Sublist records ∧
      (∀ r ∈ filteredByCharacter records selected, r.characters.contains selected = true) ∧
      (∀ r ∈ records, r.characters.contains selected = true →
        r ∈ filteredByCharacter records selected)) ∧
    (0 < (filteredByCharacter records selected).length →
      indexAfterFilter idx (filteredByCharacter records selected).length <
        (filteredByCharacter records selected).length) ∧
    ((filteredByCharacter records selected).length ≤ idx →
      indexAfterFilter idx (filteredByCharacter records selected).length = 0) ∧
    (indexAfterFilter idx (filteredByCharacter records selected).length = idx ∨
      indexAfterFilter idx (filteredByCharacter records selected).length = 0) := by
  refine ⟨?_, ?_, ?_, ?_, ?_⟩
  · intro h; simp [filteredByCharacter, h]
  · intro h
    refine ⟨?_, ?_, ?_⟩
    · simp only [filteredByCharacter, if_neg h]
      exact List.filter_sublist records
    · intro r hr
      simp only [filteredByCharacter, if_neg h, List.mem_filter] at hr
      exact hr.2
    · intro r hr hc
      simp only [filteredByCharacter, if_neg h, List.mem_filter]
      exact ⟨hr, hc⟩
  · intro hpos
    unfold indexAfterFilter
    split
    · assumption
    · exact hpos
  · intro hle
    unfold indexAfterFilter
    rw [if_neg (by omega)]
  · unfold indexAfterFilter
    split
    · exact Or.inl rfl
    · exact Or.inr rfl

/-- Witness for C4 at a concrete record list: the `"All"` filter is the
identity, and an index of 5 against a one-record subsequence resets to 0. -/
theorem filterIndexConsistency_witness :
    filteredByCharacter [demoUISong] "All" = [demoUISong] ∧
    indexAfterFilter 5 (filteredByCharacter [demoUISong] "A").length = 0 := by
  refine ⟨(filterIndexConsistency [demoUISong] "All" 0).1 rfl, ?_⟩
  exact (filterIndexConsistency [demoUISong] "A" 5).2.2.2.1 (by decide)

/-! ## Claim C8 -/

/-- Claim C8: in the record built from a parsed CSV row, an em-dash title
field yields an absent title and an em-dash album field yields the empty
string; any other title or album value is carried through unchanged. -/
theorem placeholderMapping (row : String) (numSoFar : Nat) (t al : String)
    (h0 : (parseCSVRow row)[0]? = some t) (h2 : (parseCSVRow row)[2]? = some al) :
    (mkSongEntry numSoFar (parseCSVRow row)).title =
      (if t = "—" then none else some t) ∧
    (mkSongEntry numSoFar (parseCSVRow row)).album =
      (if al = "—" then some "" else some al) := by
  constructor
  · simp only [mkSongEntry, h0]
    by_cases ht : t = "—"
    · simp [ht]
    · rw [if_neg (by simpa using ht), if_neg ht]
  · simp only [mkSongEntry, h2]
    by_cases ha : al = "—"
    · simp [ha]
    · rw [if_neg (by simpa using ha), if_neg ha]

/-- Witness for C8 at a concrete row with em-dash title and album fields. -/
theorem placeholderMapping_witness :
    (mkSongEntry 0 (parseCSVRow "—,Artist,—,1999,24,A")).title = none ∧
    (mkSongEntry 0 (parseCSVRow "—,Artist,—,1999,24,A")).album = some "" := by
  have h := placeholderMapping "—,Artist,—,1999,24,A" 0 "—" "—" (by decide) (by decide)
  simpa using h

/-! ## Claim C2 -/

/-- Counterexample to C2 as stated: a record whose three metadata fields are
all present but whose `previewUrl` is the empty string (as an accepted
candidate without a preview produces) still passes `needsEnrichment` — an
enrichment run over it issues one outbound query, not zero. -/
theorem enrichEmptyPreviewRequeries :
    truthy songEmptyPreview.itunesTrackId = true ∧
    songEmptyPreview.previewUrl = some "" ∧
    truthy songEmptyPreview.albumArt = true ∧
    (enrichSongs [songEmptyPreview]
        (fun _ => QueryOutcome.ok ⟨0, []⟩) (fun _ => false)).2.attempts = 1 := by
  decide

/-- Claim C2 (amended): running the enrichment engine over a record set in
which every record has all three metadata fields present *and non-empty*
issues zero outbound queries and leaves every record's field values
unchanged. -/
theorem enrichNoQueryWhenTruthy (songs : List SongEntry)
    (oracle : Nat → QueryOutcome) (confirm : Nat → Bool)
    (h : ∀ s ∈ songs, truthy s.itunesTrackId = true ∧ truthy s.previewUrl = true ∧
      truthy s.albumArt = true) :
    enrichSongs songs oracle confirm = (songs, ⟨0, 0, 0, 0⟩) := by
  unfold enrichSongs
  induction songs with
  | nil => rfl
  | cons s rest ih =>
    have hs := h s (by simp)
    have hne : needsEnrichment s = false := by
      simp [needsEnrichment, hs.1, hs.2.1, hs.2.2]
    have hst : songToEnrich s = false := by simp [songToEnrich, hne]
    have ihr := ih (fun x hx => h x (by simp [hx]))
    simp [enrichLoop, hst, ihr]

/-- Witness for the amended C2 at a concrete fully-enriched record. -/
theorem enrichNoQueryWhenTruthy_witness :
    enrichSongs [songFullyEnriched]
        (fun _ => QueryOutcome.ok ⟨0, []⟩) (fun _ => false) =
      ([songFullyEnriched], ⟨0, 0, 0, 0⟩) :=
  enrichNoQueryWhenTruthy [songFullyEnriched]
    (fun _ => QueryOutcome.ok ⟨0, []⟩) (fun _ => false) (by decide)

/-! ## Claim C1 -/

/-- Claim C1: `findBestMatch` returns no candidate (tag `"none"`) on an empty
candidate list; the first candidate with tag `"partial"` when the expected
album is empty or blank after trimming; else the first candidate whose
normalised collection name equals the normalised expected album, with tag
`"exact"`; else the first candidate whose normalised collection name
contains the normalised expected album or vice versa, with tag `"partial"`;
else the first candidate with tag `"none"`. -/
theorem findBestMatchTiering (results : List ITunesResult) (expectedAlbum : String) :
    (results = [] → findBestMatch results expectedAlbum = (none, "none")) ∧
    (∀ r0 rest, results = r0 :: rest →
      (normalizeAlbum expectedAlbum = "" →
        findBestMatch results expectedAlbum = (some r0, "partial")) ∧
      (normalizeAlbum expectedAlbum ≠ "" →
        (∀ c, firstSuch (exactPred (normalizeAlbum expectedAlbum)) results c →
          findBestMatch results expectedAlbum = (some c, "exact")) ∧
        ((∀ r ∈ results, exactPred (normalizeAlbum expectedAlbum) r = false) →
          (∀ c, firstSuch (partialPred (normalizeAlbum expectedAlbum)) results c →
            findBestMatch results expectedAlbum = (some c, "partial")) ∧
          ((∀ r ∈ results, partialPred (normalizeAlbum expectedAlbum) r = false) →
            findBestMatch results expectedAlbum = (some r0, "none"))))) := by
  constructor
  · rintro rfl; rfl
  · rintro r0 rest rfl
    constructor
    · intro hne
      simp [findBestMatch, hne]
    · intro hne
      constructor
      · intro c hc
        have hf := find?_of_firstSuch hc
        simp [findBestMatch, hne, hf]
      · intro hnoex
        have hfe : (r0 :: rest).find? (exactPred (normalizeAlbum expectedAlbum)) = none :=
          List.find?_eq_none.mpr (fun x hx => by simp [hnoex x hx])
        constructor
        · intro c hc
          have hf := find?_of_firstSuch hc
          simp [findBestMatch, hne, hfe, hf]
        · intro hnop
          have hfp : (r0 :: rest).find? (partialPred (normalizeAlbum expectedAlbum)) = none :=
            List.find?_eq_none.mpr (fun x hx => by simp [hnop x hx])
          simp [findBestMatch, hne, hfe, hfp]

/-- Witness for C1: on candidates with collection names `"X"`, `"Y"` and
expected album `"X"`, the first candidate is an exact match. -/
theorem findBestMatchTiering_witness :
    findBestMatch [candX, candY] "X" = (some candX, "exact") := by
  have h := ((findBestMatchTiering [candX, candY] "X").2 candX [candY] rfl).2 (by decide)
  exact h.1 candX ⟨[], [candY], rfl, by decide, by simp⟩

/-! ## Claim C10 -/

/-- Claim C10: with a non-blank expected album and no exact match, a
candidate whose normalised collection name is empty forces tag `"partial"`
(the empty string is a substring of every expected album); tag `"none"` can
only be returned when every candidate has a non-empty normalised collection
name with no substring relation to the expected album. -/
theorem emptyCollectionForcesPartial (results : List ITunesResult)
    (expectedAlbum : String) (r0 : ITunesResult) (rest : List ITunesResult)
    (hres : results = r0 :: rest)
    (hne : normalizeAlbum expectedAlbum ≠ "")
    (hnoexact : ∀ r ∈ results, exactPred (normalizeAlbum expectedAlbum) r = false) :
    ((∃ r ∈ results, normalizeAlbum r.collectionName = "") →
      (findBestMatch results expectedAlbum).2 = "partial") ∧
    ((findBestMatch results expectedAlbum).2 = "none" →
      ∀ r ∈ results, normalizeAlbum r.collectionName ≠ "" ∧
        partialPred (normalizeAlbum expectedAlbum) r = false) := by
  subst hres
  have hfe : (r0 :: rest).find? (exactPred (normalizeAlbum expectedAlbum)) = none :=
    List.find?_eq_none.mpr (fun x hx => by simp [hnoexact x hx])
  constructor
  · rintro ⟨r, hr, hempty⟩
    have hpr : partialPred (normalizeAlbum expectedAlbum) r = true := by
      unfold partialPred jsIncludes
      rw [hempty]
      have : ("" : String).data = [] := rfl
      rw [this, containsL_nil]
      simp
    cases hfp : (r0 :: rest).find? (partialPred (normalizeAlbum expectedAlbum)) with
    | none => exact absurd hpr (by simpa using List.find?_eq_none.mp hfp r hr)
    | some c => simp [findBestMatch, hne, hfe, hfp]
  · intro hnone r hr
    cases hfp : (r0 :: rest).find? (partialPred (normalizeAlbum expectedAlbum)) with
    | some c => simp [findBestMatch, hne, hfe, hfp] at hnone
    | none =>
      have hpf : partialPred (normalizeAlbum expectedAlbum) r = false := by
        simpa using List.find?_eq_none.mp hfp r hr
      refine ⟨?_, hpf⟩
      intro hempty
      have : partialPred (normalizeAlbum expectedAlbum) r = true := by
        unfold partialPred jsIncludes
        rw [hempty]
        have hdata : ("" : String).data = [] := rfl
        rw [hdata, containsL_nil]
        simp
      rw [this] at hpf
      cases hpf

/-- Witness for C10: candidates `"Y"` and a blank collection name against
expected album `"abc"` — no exact match, yet the tag is `"partial"`. -/
theorem emptyCollectionForcesPartial_witness :
    (findBestMatch [candY, candBlank] "abc").2 = "partial" := by
  have h := emptyCollectionForcesPartial [candY, candBlank] "abc" candY [candBlank]
    rfl (by decide) (by decide)
  exact h.1 ⟨candBlank, by simp, by decide⟩

/-! ## The enrichment loop: helper lemmas -/

/-- A query that returns (does not throw) always increments `queryCount`,
whatever the response contains. -/
theorem processOne_counted (song : SongEntry) (resp : ITunesResponse) (cAns : Bool) :
    (processOne song (QueryOutcome.ok resp) cAns).2.1 = true := by
  by_cases h0 : resp.resultCount = 0
  · simp [processOne, h0]
  · rcases hfb : findBestMatch resp.results song.album with ⟨ob, tag⟩
    cases ob with
    | none => simp [processOne, h0, hfb]
    | some b =>
      simp only [processOne, hfb, if_neg h0]
      split <;> rfl

/-! ## Claim C6 -/

/-- Claim C6: when the search for a record returns no candidates, or the
operator rejects the proposed match, or the query throws, the record is left
unchanged, the skipped counter is incremented (and the enriched counter is
not), and the loop continues with the subsequent records. -/
theorem skipLeavesRecordUnchanged (oracle : Nat → QueryOutcome)
    (confirm : Nat → Bool) (song : SongEntry) (rest : List SongEntry)
    (st : EnrichState)
    (hf : songToEnrich song = true) (hb : st.queryCount < MAX_QUERIES)
    (hskip : oracle st.attempts = QueryOutcome.err ∨
      ∃ resp, oracle st.attempts = QueryOutcome.ok resp ∧
        (resp.resultCount = 0 ∨
         (findBestMatch resp.results song.album).1 = none ∨
         ((findBestMatch resp.results song.album).2 ≠ "exact" ∧
           confirm st.attempts = false))) :
    ∃ st' : EnrichState,
      st'.skipped = st.skipped + 1 ∧ st'.enriched = st.enriched ∧
      st'.attempts = st.attempts + 1 ∧
      enrichLoop oracle confirm (song :: rest) st =
        (song :: (enrichLoop oracle confirm rest st').1,
         (enrichLoop oracle confirm rest st').2) := by
  have hstep : (processOne song (oracle st.attempts) (confirm st.attempts)).1 = song ∧
      (processOne song (oracle st.attempts) (confirm st.attempts)).2.2 = false := by
    rcases hskip with herr | ⟨resp, hok, hcase⟩
    · rw [herr]; exact ⟨rfl, rfl⟩
    · rw [hok]
      rcases hcase with h0 | hnone | ⟨htag, hconf⟩
      · simp [processOne, h0]
      · by_cases h0 : resp.resultCount = 0
        · simp [processOne, h0]
        · rcases hfb : findBestMatch resp.results song.album with ⟨ob, tag⟩
          rw [hfb] at hnone
          cases ob with
          | none => simp [processOne, h0, hfb]
          | some b => simp at hnone
      · by_cases h0 : resp.resultCount = 0
        · simp [processOne, h0]
        · rcases hfb : findBestMatch resp.results song.album with ⟨ob, tag⟩
          rw [hfb] at htag
          cases ob with
          | none => simp [processOne, h0, hfb]
          | some b =>
            have htag' : tag ≠ "exact" := by simpa using htag
            simp [processOne, h0, hfb, htag', hconf]
  have hnle : ¬ MAX_QUERIES ≤ st.queryCount := by omega
  refine ⟨nextState st
      (processOne song (oracle st.attempts) (confirm st.attempts)).2.1 false,
    rfl, rfl, rfl, ?_⟩
  simp only [enrichLoop]
  rw [if_pos hf, if_neg hnle, hstep.1, hstep.2]

/-- Witness for C6: a record needing enrichment whose search returns zero
results is skipped, left unchanged, and the loop proceeds. -/
theorem skipLeavesRecordUnchanged_witness :
    ∃ st' : EnrichState,
      st'.skipped = 1 ∧ st'.enriched = 0 ∧ st'.attempts = 1 ∧
      enrichLoop (fun _ => QueryOutcome.ok ⟨0, []⟩) (fun _ => false)
          [demoSongNeeding] ⟨0, 0, 0, 0⟩ =
        (demoSongNeeding ::
          (enrichLoop (fun _ => QueryOutcome.ok ⟨0, []⟩) (fun _ => false) [] st').1,
         (enrichLoop (fun _ => QueryOutcome.ok ⟨0, []⟩) (fun _ => false) [] st').2) :=
  skipLeavesRecordUnchanged (fun _ => QueryOutcome.ok ⟨0, []⟩) (fun _ => false)
    demoSongNeeding [] ⟨0, 0, 0, 0⟩ (by decide) (by decide)
    (Or.inr ⟨⟨0, []⟩, rfl, Or.inl rfl⟩)

/-! ## Claim C3 -/

/-- With a throw-free oracle, a run whose remaining records needing
enrichment at least fill the remaining budget drives `queryCount` up to
`MAX_QUERIES`, issues exactly the remaining-budget number of queries, and
leaves every record past the point of budget exhaustion untouched. -/
theorem enrichLoop_budget (oracle : Nat → QueryOutcome) (confirm : Nat → Bool)
    (hok : ∀ n, oracle n ≠ QueryOutcome.err) :
    ∀ (l : List SongEntry) (st : EnrichState),
      st.queryCount ≤ MAX_QUERIES →
      MAX_QUERIES - st.queryCount ≤ l.countP songToEnrich →
      (enrichLoop oracle confirm l st).2.queryCount = MAX_QUERIES ∧
      (enrichLoop oracle confirm l st).2.attempts =
        st.attempts + (MAX_QUERIES - st.queryCount) ∧
      ∀ i, MAX_QUERIES - st.queryCount < (l.take (i + 1)).countP songToEnrich →
        (enrichLoop oracle confirm l st).1[i]? = l[i]? := by
  intro l
  induction l with
  | nil =>
    intro st hle hcnt
    rw [List.countP_nil] at hcnt
    refine ⟨?_, ?_, ?_⟩
    · show st.queryCount = MAX_QUERIES
      omega
    · show st.attempts = st.attempts + (MAX_QUERIES - st.queryCount)
      omega
    · intro i _
      rfl
  | cons song rest ih =>
    intro st hle hcnt
    by_cases hf : songToEnrich song = true
    · rw [List.countP_cons_of_pos _ _ hf] at hcnt
      by_cases hb : MAX_QUERIES ≤ st.queryCount
      · have hq : st.queryCount = MAX_QUERIES := le_antisymm hle hb
        simp only [enrichLoop]
        rw [if_pos hf, if_pos hb]
        refine ⟨hq, ?_, fun i _ => rfl⟩
        show st.attempts = st.attempts + (MAX_QUERIES - st.queryCount)
        omega
      · cases ho : oracle st.attempts with
        | err => exact absurd ho (hok st.attempts)
        | ok resp =>
          simp only [enrichLoop]
          rw [if_pos hf, if_neg hb, ho,
            processOne_counted song resp (confirm st.attempts)]
          obtain ⟨ihq, iha, ihu⟩ := ih
            (nextState st true
              ((processOne song (QueryOutcome.ok resp) (confirm st.attempts)).2.2))
            ((by omega : st.queryCount + 1 ≤ MAX_QUERIES))
            ((by omega :
              MAX_QUERIES - (st.queryCount + 1) ≤ rest.countP songToEnrich))
          refine ⟨ihq, ?_, ?_⟩
          · rw [iha]
            show st.attempts + 1 + (MAX_QUERIES - (st.queryCount + 1)) =
              st.attempts + (MAX_QUERIES - st.queryCount)
            omega
          · intro i hik
            cases i with
            | zero =>
              have h1 : ((song :: rest).take 1).countP songToEnrich = 1 := by
                simp [hf]
              rw [h1] at hik
              omega
            | succ i =>
              rw [List.take_succ_cons, List.countP_cons_of_pos _ _ hf] at hik
              have := ihu i
                ((by omega : MAX_QUERIES - (st.queryCount + 1) <
                  (rest.take (i + 1)).countP songToEnrich))
              simpa [List.getElem?_cons_succ] using this
    · rw [List.countP_cons_of_neg _ _ hf] at hcnt
      obtain ⟨ihq, iha, ihu⟩ := ih st hle hcnt
      simp only [enrichLoop]
      rw [if_neg hf]
      refine ⟨ihq, iha, ?_⟩
      intro i hik
      cases i with
      | zero => simp
      | succ i =>
        rw [List.take_succ_cons, List.countP_cons_of_neg _ _ hf] at hik
        have := ihu i hik
        simpa [List.getElem?_cons_succ] using this

/-- Claim C3: with more records needing enrichment than the query budget of
15 and a throw-free oracle, one run issues exactly `MAX_QUERIES` outbound
queries (`attempts`), the script's own counter reaches the budget, and every
record past the point where the budget is exhausted keeps its position and
its field values unchanged. -/
theorem budgetCap (songs : List SongEntry) (oracle : Nat → QueryOutcome)
    (confirm : Nat → Bool)
    (hcount : MAX_QUERIES < songs.countP songToEnrich)
    (hok : ∀ n, oracle n ≠ QueryOutcome.err) :
    (enrichSongs songs oracle confirm).2.attempts = MAX_QUERIES ∧
    (enrichSongs songs oracle confirm).2.queryCount = MAX_QUERIES ∧
    ∀ i, MAX_QUERIES < (songs.take (i + 1)).countP songToEnrich →
      (enrichSongs songs oracle confirm).1[i]? = songs[i]? := by
  obtain ⟨hq, ha, hu⟩ := enrichLoop_budget oracle confirm hok songs ⟨0, 0, 0, 0⟩
    (by exact Nat.zero_le _) (by simpa using hcount.le)
  exact ⟨by simpa using ha, hq, fun i hik => hu i (by simpa using hik)⟩

/-- Witness for C3: sixteen records needing enrichment against a throw-free
oracle issue exactly fifteen queries. -/
theorem budgetCap_witness :
    (enrichSongs (List.replicate 16 demoSongNeeding)
        (fun _ => QueryOutcome.ok ⟨0, []⟩) (fun _ => false)).2.attempts =
      MAX_QUERIES :=
  (budgetCap (List.replicate 16 demoSongNeeding)
    (fun _ => QueryOutcome.ok ⟨0, []⟩) (fun _ => false)
    (by decide) (fun n h => nomatch h)).1

/-! ## Claim C7 -/

/-- `takeWhile` over an all-satisfying prefix followed by a failing element
keeps exactly the prefix. -/
theorem takeWhile_all_append {p : Char → Bool} :
    ∀ (l : List Char) (x : Char) (r : List Char),
      (∀ a ∈ l, p a = true) → p x = false →
      (l ++ x :: r).takeWhile p = l := by
  intro l
  induction l with
  | nil => intro x r _ hx; simp [List.takeWhile_cons, hx]
  | cons a as ih =>
    intro x r hl hx
    have ha : p a = true := hl a (by simp)
    simp only [List.cons_append, List.takeWhile_cons, ha, if_true]
    rw [ih x r (fun b hb => hl b (by simp [hb])) hx]

/-- `dropWhile` over an all-satisfying prefix followed by a failing element
drops exactly the prefix. -/
theorem dropWhile_all_append {p : Char → Bool} :
    ∀ (l : List Char) (x : Char) (r : List Char),
      (∀ a ∈ l, p a = true) → p x = false →
      (l ++ x :: r).dropWhile p = x :: r := by
  intro l
  induction l with
  | nil => intro x r _ hx; simp [List.dropWhile_cons, hx]
  | cons a as ih =>
    intro x r hl hx
    have ha : p a = true := hl a (by simp)
    simp only [List.cons_append, List.dropWhile_cons, ha, if_true]
    exact ih x r (fun b hb => hl b (by simp [hb])) hx

/-- A list whose last characters spell `/W x H bb.ext` (reversed here, with
`W`, `H` non-empty digit runs and `ext` a case variant of `jpg` or `png`)
matches the artwork-resolution regex, leaving the reversed prefix. -/
theorem matchResSuffix_build (preR wR hR : List Char) (e1 e2 e3 : Char)
    (hwne : wR ≠ []) (hwd : ∀ c ∈ wR, c.isDigit = true)
    (hhne : hR ≠ []) (hhd : ∀ c ∈ hR, c.isDigit = true)
    (he : (e1.toLower = 'j' ∧ e2.toLower = 'p' ∧ e3.toLower = 'g') ∨
          (e1.toLower = 'p' ∧ e2.toLower = 'n' ∧ e3.toLower = 'g')) :
    matchResSuffix (e3 :: e2 :: e1 :: '.' :: 'b' :: 'b' ::
        (hR ++ 'x' :: (wR ++ '/' :: preR))) = some preR := by
  have hx : ('x' : Char).isDigit = false := by decide
  have hsl : ('/' : Char).isDigit = false := by decide
  have htw1 := takeWhile_all_append hR 'x' (wR ++ '/' :: preR) hhd hx
  have hdw1 := dropWhile_all_append hR 'x' (wR ++ '/' :: preR) hhd hx
  have htw2 := takeWhile_all_append wR '/' preR hwd hsl
  have hdw2 := dropWhile_all_append wR '/' preR hwd hsl
  have hhR : hR.isEmpty = false := by
    cases hR with
    | nil => exact absurd rfl hhne
    | cons _ _ => rfl
  have hwR : wR.isEmpty = false := by
    cases wR with
    | nil => exact absurd rfl hwne
    | cons _ _ => rfl
  have hbb : lowEq 'b' 'b' = true := by decide
  have hxx : lowEq 'x' 'x' = true := by decide
  rcases he with ⟨h1, h2, h3⟩ | ⟨h1, h2, h3⟩ <;>
    simp [matchResSuffix, lowEq, h1, h2, h3, hbb, hxx, htw1, hdw1, htw2, hdw2,
      hhR, hwR]

/-- A character list whose image under `toLower` has three known characters
has exactly three characters mapping to them. -/
theorem map_toLower_eq_three {l : List Char} {a b c : Char}
    (h : l.map Char.toLower = [a, b, c]) :
    ∃ e1 e2 e3, l = [e1, e2, e3] ∧
      e1.toLower = a ∧ e2.toLower = b ∧ e3.toLower = c := by
  cases l with
  | nil => simp at h
  | cons x t =>
    cases t with
    | nil => simp at h
    | cons y u =>
      cases u with
      | nil => simp at h
      | cons z v =>
        cases v with
        | nil =>
          simp only [List.map_cons, List.map_nil, List.cons.injEq, and_true] at h
          exact ⟨x, y, z, rfl, h.1, h.2.1, h.2.2⟩
        | cons _ _ => simp at h

/-- Counterexample to C7 as stated: an accepted candidate whose artwork URL
carries a `WxH` resolution suffix immediately before its extension — but no
`bb` marker — is stored unchanged: no `1000x1000`, and the `.png` extension
is kept rather than canonicalised to `.jpg`. -/
theorem artworkNoBBMarkerUnchanged :
    candNoBB.artworkUrl100 = some "https://x/30x30.png" ∧
    (acceptCandidate demoSongNeeding candNoBB).albumArt =
      some "https://x/30x30.png" ∧
    containsL ("https://x/30x30.png".data) ("1000x1000".data) = false ∧
    ("https://x/30x30.png" : String) ≠ "https://x/1000x1000.jpg" := by
  decide

/-- Claim C7 (amended): the pattern the engine rewrites is `/WxHbb`
immediately before the `.jpg`/`.png` extension (the iTunes artwork form,
with its literal `bb` marker and leading slash, matched case-insensitively);
every such URL is rewritten to the fixed `\x7b...\x7d/1000x1000bb.jpg` form with the
original extension discarded, and on every accepted match the stored
`albumArt` is exactly `getHighResArtwork` of the candidate's artwork URL. -/
theorem getHighResArtworkRewrite (pre w hgt ext : String)
    (hw : w.data ≠ [] ∧ ∀ c ∈ w.data, c.isDigit = true)
    (hh : hgt.data ≠ [] ∧ ∀ c ∈ hgt.data, c.isDigit = true)
    (hext : jsToLower ext = "jpg" ∨ jsToLower ext = "png") :
    getHighResArtwork (some (pre ++ "/" ++ w ++ "x" ++ hgt ++ "bb." ++ ext)) =
      pre ++ "/1000x1000bb.jpg" ∧
    ∀ (song : SongEntry) (bestMatch : ITunesResult),
      (acceptCandidate song bestMatch).albumArt =
        some (getHighResArtwork bestMatch.artworkUrl100) := by
  refine ⟨?_, fun song bm => rfl⟩
  have hed : ext.data.map Char.toLower = ['j', 'p', 'g'] ∨
      ext.data.map Char.toLower = ['p', 'n', 'g'] := by
    rcases hext with h | h
    · left
      have := congrArg String.data h
      simpa [jsToLower] using this
    · right
      have := congrArg String.data h
      simpa [jsToLower] using this
  obtain ⟨e1, e2, e3, hED, hcase⟩ :
      ∃ e1 e2 e3, ext.data = [e1, e2, e3] ∧
        ((e1.toLower = 'j' ∧ e2.toLower = 'p' ∧ e3.toLower = 'g') ∨
         (e1.toLower = 'p' ∧ e2.toLower = 'n' ∧ e3.toLower = 'g')) := by
    rcases hed with h | h
    · obtain ⟨e1, e2, e3, hl, h1, h2, h3⟩ := map_toLower_eq_three h
      exact ⟨e1, e2, e3, hl, Or.inl ⟨h1, h2, h3⟩⟩
    · obtain ⟨e1, e2, e3, hl, h1, h2, h3⟩ := map_toLower_eq_three h
      exact ⟨e1, e2, e3, hl, Or.inr ⟨h1, h2, h3⟩⟩
  have hsd : (pre ++ "/" ++ w ++ "x" ++ hgt ++ "bb." ++ ext).data =
      pre.data ++ '/' :: (w.data ++ 'x' ::
        (hgt.data ++ 'b' :: 'b' :: '.' :: ext.data)) := by
    have d1 : ("/" : String).data = ['/'] := rfl
    have d2 : ("x" : String).data = ['x'] := rfl
    have d3 : ("bb." : String).data = ['b', 'b', '.'] := rfl
    simp [String.data_append, d1, d2, d3]
  have hne : (pre ++ "/" ++ w ++ "x" ++ hgt ++ "bb." ++ ext).data.isEmpty = false := by
    rw [hsd]
    cases pre.data <;> rfl
  have hrev : (pre ++ "/" ++ w ++ "x" ++ hgt ++ "bb." ++ ext).data.reverse =
      e3 :: e2 :: e1 :: '.' :: 'b' :: 'b' ::
        (hgt.data.reverse ++ 'x' :: (w.data.reverse ++ '/' :: pre.data.reverse)) := by
    rw [hsd, hED]
    simp
  have hms := matchResSuffix_build pre.data.reverse w.data.reverse
    hgt.data.reverse e1 e2 e3
    (by simp [hw.1]) (fun c hc => hw.2 c (List.mem_reverse.mp hc))
    (by simp [hh.1]) (fun c hc => hh.2 c (List.mem_reverse.mp hc))
    hcase
  simp only [getHighResArtwork]
  rw [hne, hrev, hms]
  simp only [Bool.false_eq_true, if_false]
  apply String.ext
  simp [String.data_append]

/-- Witness for the amended C7 at a concrete iTunes artwork URL. -/
theorem getHighResArtworkRewrite_witness :
    getHighResArtwork
        (some ("https://x" ++ "/" ++ "100" ++ "x" ++ "100" ++ "bb." ++ "jpg")) =
      "https://x" ++ "/1000x1000bb.jpg" :=
  (getHighResArtworkRewrite "https://x" "100" "100" "jpg"
    (by decide) (by decide) (Or.inl (by decide))).1

/-! ## Claim C5 -/

/-- `pushAll` appends the pushed characters to the accumulator's data. -/
theorem pushAll_data : ∀ (l : List Char) (cur : String),
    (pushAll cur l).data = cur.data ++ l := by
  intro l
  induction l with
  | nil => intro cur; simp [pushAll]
  | cons c cs ih =>
    intro cur
    show (pushAll (cur.push c) cs).data = cur.data ++ c :: cs
    rw [ih (cur.push c), String.data_push]
    simp

/-- Pushing a string's characters onto the empty accumulator rebuilds it. -/
theorem pushAll_empty (x : String) : pushAll "" x.data = x := by
  apply String.ext
  rw [pushAll_data]
  rfl

/-- Outside quotes, a run of delimiter-free, quote-free characters is
accumulated into the current field. -/
theorem parseAux_plain : ∀ (seg : List Char) (cur : String) (rest : List Char),
    (∀ c ∈ seg, c ≠ '"' ∧ c ≠ ',') →
    parseCSVRowAux (seg ++ rest) cur false =
      parseCSVRowAux rest (pushAll cur seg) false := by
  intro seg
  induction seg with
  | nil => intro cur rest _; rfl
  | cons c cs ih =>
    intro cur rest h
    have hc := h c (by simp)
    simp only [List.cons_append, parseCSVRowAux, hc.1, hc.2, if_false,
      decide_False, Bool.false_and, Bool.not_false, Bool.and_true]
    exact ih (cur.push c) rest (fun b hb => h b (by simp [hb]))

/-- Inside quotes, every character other than the quote — the delimiter
included — is accumulated into the current field. -/
theorem parseAux_quoteMode : ∀ (seg : List Char) (cur : String) (rest : List Char),
    (∀ c ∈ seg, c ≠ '"') →
    parseCSVRowAux (seg ++ rest) cur true =
      parseCSVRowAux rest (pushAll cur seg) true := by
  intro seg
  induction seg with
  | nil => intro cur rest _; rfl
  | cons c cs ih =>
    intro cur rest h
    have hc := h c (by simp)
    simp only [List.cons_append, parseCSVRowAux, hc, if_false,
      Bool.not_true, Bool.and_false]
    exact ih (cur.push c) rest (fun b hb => h b (by simp [hb]))

/-- A whole quoted field: the opening quote toggles into quote mode, the
body (commas included) is accumulated verbatim, the closing quote toggles
back out. -/
theorem parseAux_quoted (f : String) (rest : List Char) (cur : String)
    (hf : ∀ c ∈ f.data, c ≠ '"') :
    parseCSVRowAux ('"' :: (f.data ++ '"' :: rest)) cur false =
      parseCSVRowAux rest (pushAll cur f.data) false := by
  show parseCSVRowAux (f.data ++ '"' :: rest) cur true =
    parseCSVRowAux rest (pushAll cur f.data) false
  rw [parseAux_quoteMode f.data cur ('"' :: rest) hf]
  rfl

/-- `joinComma` on a cons with a non-empty tail. -/
theorem joinComma_cons_ne (x : String) (l : List String) (hl : l ≠ []) :
    joinComma (x :: l) = x ++ "," ++ joinComma l := by
  cases l with
  | nil => exact absurd rfl hl
  | cons y ys => rfl

/-- Parsing a comma-joined list of plain (quote-free, delimiter-free) fields
yields the trimmed fields, the first one on top of the accumulator. -/
theorem parse_plain_cons : ∀ (xs : List String) (x : String) (cur : String),
    (∀ c ∈ x.data, c ≠ '"' ∧ c ≠ ',') →
    (∀ s ∈ xs, ∀ c ∈ s.data, c ≠ '"' ∧ c ≠ ',') →
    parseCSVRowAux (joinComma (x :: xs)).data cur false =
      jsTrim (pushAll cur x.data) :: xs.map jsTrim := by
  intro xs
  induction xs with
  | nil =>
    intro x cur hx _
    show parseCSVRowAux x.data cur false = [jsTrim (pushAll cur x.data)]
    have h := parseAux_plain x.data cur [] hx
    rw [List.append_nil] at h
    rw [h]
    rfl
  | cons y ys ih =>
    intro x cur hx hall
    rw [joinComma_cons_ne x (y :: ys) (by simp)]
    have dc : ("," : String).data = [','] := rfl
    have hdata : (x ++ "," ++ joinComma (y :: ys)).data =
        x.data ++ ',' :: (joinComma (y :: ys)).data := by
      simp [String.data_append, dc]
    rw [hdata, parseAux_plain x.data cur (',' :: (joinComma (y :: ys)).data) hx]
    show jsTrim (pushAll cur x.data) ::
      parseCSVRowAux (joinComma (y :: ys)).data "" false = _
    rw [ih y "" (hall y (by simp)) (fun s hs => hall s (by simp [hs])),
      pushAll_empty y]
    rfl

/-- Claim C5: a raw CSV row in which one field is enclosed in double quotes
and may contain the comma delimiter parses to that field as a single
undivided element in its correct position — the plain fields around it
split normally and the quoted field's commas stay literal. -/
theorem parseCSVRowQuotedField : ∀ (pre : List String) (f : String)
    (post : List String),
    (∀ s ∈ pre, ∀ c ∈ s.data, c ≠ '"' ∧ c ≠ ',') →
    (∀ s ∈ post, ∀ c ∈ s.data, c ≠ '"' ∧ c ≠ ',') →
    (∀ c ∈ f.data, c ≠ '"') →
    parseCSVRow (joinComma (pre ++ ("\"" ++ f ++ "\"") :: post)) =
      (pre ++ f :: post).map jsTrim := by
  intro pre
  induction pre with
  | nil =>
    intro f post _ hpost hf
    simp only [List.nil_append]
    cases post with
    | nil =>
      have d : ("\"" : String).data = ['"'] := rfl
      have hq : ("\"" ++ f ++ "\"").data = '"' :: (f.data ++ '"' :: []) := by
        simp [String.data_append, d]
      show parseCSVRowAux ("\"" ++ f ++ "\"").data "" false = [jsTrim f]
      rw [hq, parseAux_quoted f [] "" hf]
      show [jsTrim (pushAll "" f.data)] = [jsTrim f]
      rw [pushAll_empty f]
    | cons p ps =>
      rw [joinComma_cons_ne _ (p :: ps) (by simp)]
      have d : ("\"" : String).data = ['"'] := rfl
      have dc : ("," : String).data = [','] := rfl
      have hq : (("\"" ++ f ++ "\"") ++ "," ++ joinComma (p :: ps)).data =
          '"' :: (f.data ++ '"' :: (',' :: (joinComma (p :: ps)).data)) := by
        simp [String.data_append, d, dc]
      show parseCSVRowAux
        (("\"" ++ f ++ "\"") ++ "," ++ joinComma (p :: ps)).data "" false = _
      rw [hq, parseAux_quoted f (',' :: (joinComma (p :: ps)).data) "" hf]
      show jsTrim (pushAll "" f.data) ::
        parseCSVRowAux (joinComma (p :: ps)).data "" false = _
      rw [parse_plain_cons ps p "" (hpost p (by simp))
        (fun s hs => hpost s (by simp [hs])), pushAll_empty f, pushAll_empty p]
      rfl
  | cons x xs ih =>
    intro f post hpre hpost hf
    have hx := hpre x (by simp)
    simp only [List.cons_append]
    rw [joinComma_cons_ne x (xs ++ ("\"" ++ f ++ "\"") :: post) (by simp)]
    have dc : ("," : String).data = [','] := rfl
    have hdata : (x ++ "," ++ joinComma (xs ++ ("\"" ++ f ++ "\"") :: post)).data =
        x.data ++ ',' :: (joinComma (xs ++ ("\"" ++ f ++ "\"") :: post)).data := by
      simp [String.data_append, dc]
    show parseCSVRowAux
      (x ++ "," ++ joinComma (xs ++ ("\"" ++ f ++ "\"") :: post)).data "" false = _
    rw [hdata, parseAux_plain x.data ""
      (',' :: (joinComma (xs ++ ("\"" ++ f ++ "\"") :: post)).data) hx]
    show jsTrim (pushAll "" x.data) ::
      parseCSVRowAux (joinComma (xs ++ ("\"" ++ f ++ "\"") :: post)).data "" false = _
    rw [show parseCSVRowAux
        (joinComma (xs ++ ("\"" ++ f ++ "\"") :: post)).data "" false =
      parseCSVRow (joinComma (xs ++ ("\"" ++ f ++ "\"") :: post)) from rfl]
    rw [ih f post (fun s hs => hpre s (by simp [hs])) hpost hf, pushAll_empty x]
    rfl

/-- Witness for C5: the row `a,"x, y",b` — the quoted field keeps its comma
and lands undivided in the middle position. -/
theorem parseCSVRowQuotedField_witness :
    parseCSVRow (joinComma (["a"] ++ ("\"" ++ "x, y" ++ "\"") :: ["b"])) =
      (["a"] ++ "x, y" :: ["b"]).map jsTrim :=
  parseCSVRowQuotedField ["a"] "x, y" ["b"] (by decide) (by decide) (by decide)

end StayTrue
